import Mathlib

/-!
# Verification of the font-metrics editor

A shallow embedding of the metrics-editing pipeline of the repository
(`font-metrics.js`): the metric calculator, the structured table editor
for the `OS/2` and `hhea` tables, and the binary hhea patcher
(`patchHheaTable`), together with theorems settling the specification's
claims about them.

Buffers are modelled as `List Nat` (one entry per byte); JavaScript
numbers appearing in the metric calculation are modelled as rationals
with `Math.round` as round-half-up; table records are structures mirroring
the opentype.js table objects the script reads and writes.
-/

namespace FontMetrics

/-! ## Metric calculator (lines 137–140 of the script)

`Math.round` in JavaScript rounds half-way cases toward positive
infinity: `Math.round x = ⌊x + 1/2⌋`. -/

/-- JavaScript `Math.round`: round half up (toward `+∞`). -/
def jsRound (x : ℚ) : ℤ := ⌊x + 1 / 2⌋

/-- The computed metric triple `{ascent, descent, lineGap}`. -/
structure Metrics where
  ascent : ℤ
  descent : ℤ
  lineGap : ℤ
deriving DecidableEq, Repr

/-- The metric computation of `modifyFont`:
`newAscent = Math.round(unitsPerEm * (options.ascent / 100))`,
`newDescent = -Math.round(unitsPerEm * (options.descent / 100))`,
`newLineGap = Math.round(options.lineGap)`. -/
def computeMetrics (unitsPerEm ascentPercent descentPercent lineGapUnits : ℚ) : Metrics :=
  { ascent := jsRound (unitsPerEm * (ascentPercent / 100))
  , descent := -jsRound (unitsPerEm * (descentPercent / 100))
  , lineGap := jsRound lineGapUnits }

/-! ## Structured table editor (lines 149–204) -/

/-- The `OS/2` table fields touched by the script (opentype.js object). -/
structure OS2Table where
  sTypoAscender : ℤ
  sTypoDescender : ℤ
  sTypoLineGap : ℤ
  usWinAscent : ℤ
  usWinDescent : ℤ
  fsSelection : ℕ
deriving DecidableEq, Repr

/-- The `hhea` table fields (opentype.js object); the script rebuilds the
whole record. -/
structure HheaTable where
  version : ℤ
  ascender : ℤ
  descender : ℤ
  lineGap : ℤ
  advanceWidthMax : ℤ
  minLeftSideBearing : ℤ
  minRightSideBearing : ℤ
  xMaxExtent : ℤ
  caretSlopeRise : ℤ
  caretSlopeRun : ℤ
  caretOffset : ℤ
  reserved1 : ℤ
  reserved2 : ℤ
  reserved3 : ℤ
  reserved4 : ℤ
  metricDataFormat : ℤ
  numberOfHMetrics : ℤ
deriving DecidableEq, Repr

/-- The two metrics tables of the parsed font, each possibly absent
(`font.tables.os2`, `font.tables.hhea`). -/
structure FontTables where
  os2 : Option OS2Table
  hhea : Option HheaTable
deriving DecidableEq, Repr

/-- Warnings and non-fatal reports the script can emit on the paths
modelled here. -/
inductive Warning
  | noOs2Table
  | noHheaTable
  | patchTargetNotFound
  | patchFailed
deriving DecidableEq, Repr

/-- JavaScript `x || d` on a number-valued field: the left operand is kept
unless it is falsy (for an integer, zero). -/
def jsOr (x d : ℤ) : ℤ := if x = 0 then d else x

/-- The OS/2 mutation of `modifyFont` (lines 150–160): set the
typographic metrics, mirror the Windows metrics as absolute values, and
OR bit 7 (`USE_TYPO_METRICS`, `0x80`) into `fsSelection`. -/
def editOs2 (os2 : OS2Table) (m : Metrics) : OS2Table :=
  { os2 with
    sTypoAscender := m.ascent
    sTypoDescender := m.descent
    sTypoLineGap := m.lineGap
    usWinAscent := |m.ascent|
    usWinDescent := |m.descent|
    fsSelection := os2.fsSelection ||| 0x80 }

/-- The hhea replacement of `modifyFont` (lines 176–194): a fresh record
with the computed metrics and the original's pass-through fields, using
JavaScript `||` defaults exactly where the script does. -/
def editHhea (originalHhea : HheaTable) (m : Metrics) : HheaTable :=
  { version := jsOr originalHhea.version 0x00010000
  , ascender := m.ascent
  , descender := m.descent
  , lineGap := m.lineGap
  , advanceWidthMax := originalHhea.advanceWidthMax
  , minLeftSideBearing := originalHhea.minLeftSideBearing
  , minRightSideBearing := originalHhea.minRightSideBearing
  , xMaxExtent := originalHhea.xMaxExtent
  , caretSlopeRise := originalHhea.caretSlopeRise
  , caretSlopeRun := originalHhea.caretSlopeRun
  , caretOffset := originalHhea.caretOffset
  , reserved1 := jsOr originalHhea.reserved1 0
  , reserved2 := jsOr originalHhea.reserved2 0
  , reserved3 := jsOr originalHhea.reserved3 0
  , reserved4 := jsOr originalHhea.reserved4 0
  , metricDataFormat := jsOr originalHhea.metricDataFormat 0
  , numberOfHMetrics := originalHhea.numberOfHMetrics }

/-- The structured edit step of `modifyFont` (lines 149–204): mutate each
metrics table when present, warn when absent; no range check is performed
anywhere on this path. -/
def editFont (f : FontTables) (m : Metrics) : FontTables × List Warning :=
  let (os2Res, w1) :=
    match f.os2 with
    | some t => (some (editOs2 t m), ([] : List Warning))
    | none => (none, [Warning.noOs2Table])
  let (hheaRes, w2) :=
    match f.hhea with
    | some t => (some (editHhea t m), ([] : List Warning))
    | none => (none, [Warning.noHheaTable])
  ({ os2 := os2Res, hhea := hheaRes }, w1 ++ w2)

/-! ## Binary patcher (`patchHheaTable`, lines 283–339)

A serialized font is a `List Nat` of bytes. Node `Buffer` reads and
writes are modelled byte-for-byte; `Buffer.writeInt16BE` validates that
the value is in the signed 16-bit range and that the write fits in the
buffer, throwing otherwise — modelled as `Option`. The `try/catch`
wrapping the whole patcher returns the original buffer on any throw. -/

/-- Big-endian 32-bit read, `buffer.readUInt32BE(i)`. Every call the
patcher makes is in bounds (the scan guard gives `i + 12 ≤ length`), so
the out-of-bounds default is never exercised. -/
def readUInt32BE (b : List ℕ) (i : ℕ) : ℕ :=
  b.getD i 0 * 16777216 + b.getD (i + 1) 0 * 65536 + b.getD (i + 2) 0 * 256 + b.getD (i + 3) 0

/-- `v` is in the signed 16-bit range accepted by `writeInt16BE`. -/
def inRange16 (v : ℤ) : Prop := -32768 ≤ v ∧ v ≤ 32767

instance (v : ℤ) : Decidable (inRange16 v) := by unfold inRange16; infer_instance

/-- Node `buffer.writeInt16BE(v, off)`: checks `v ∈ [-32768, 32767]` and
`off + 2 ≤ length`, then stores the two's-complement value big-endian;
a failed check throws (`none`). -/
def writeInt16BE (b : List ℕ) (v : ℤ) (off : ℕ) : Option (List ℕ) :=
  if inRange16 v ∧ off + 2 ≤ b.length then
    let u := (v % 65536).toNat
    some ((b.set off (u / 256)).set (off + 1) (u % 256))
  else none

/-- The bytes of the ASCII tag `hhea`. -/
def hheaTag : List ℕ := [104, 104, 101, 97]

/-- `buffer.subarray(i, i + 4).equals(hheaTag)`; under the scan guard
`i + 4 ≤ length` holds, so the four `getD` reads are the subarray. -/
def tagMatch (b : List ℕ) (i : ℕ) : Prop :=
  b.getD i 0 = 104 ∧ b.getD (i + 1) 0 = 104 ∧ b.getD (i + 2) 0 = 101 ∧ b.getD (i + 3) 0 = 97

instance (b : List ℕ) (i : ℕ) : Decidable (tagMatch b i) := by unfold tagMatch; infer_instance

/-- The scan loop `for (let i = 12; i < buffer.length - 16; i += 16)`,
returning the position of the first 16-byte stride whose 4 leading bytes
are `hhea`. Fuel-indexed for structural recursion; `b.length` steps of
fuel always suffice (`findHheaAux_fuel_enough`). -/
def findHheaAux (b : List ℕ) : ℕ → ℕ → Option ℕ
  | _, 0 => none
  | i, fuel + 1 =>
    if i < b.length - 16 then
      if tagMatch b i then some i
      else findHheaAux b (i + 16) fuel
    else none

/-- The directory scan of `patchHheaTable`: first `hhea` match from byte
12 in strides of 16; `none` models `hheaOffset === -1`. -/
def findHhea (b : List ℕ) : Option ℕ := findHheaAux b 12 b.length

/-- `patchHheaTable(buffer, ascent, descent, lineGap)`: copy the buffer,
scan for the `hhea` directory entry, read the table offset from bytes
8–11 of the entry, and write the three metrics at `offset + 4/6/8`.
A missed scan warns and returns the (copied) input; any throwing write is
caught and the original input returned with a warning. -/
def patchHheaTable (buffer : List ℕ) (ascent descent lineGap : ℤ) :
    List ℕ × List Warning :=
  match findHhea buffer with
  | none => (buffer, [Warning.patchTargetNotFound])
  | some i =>
    let hheaOffset := readUInt32BE buffer (i + 8)
    match writeInt16BE buffer ascent (hheaOffset + 4) with
    | none => (buffer, [Warning.patchFailed])
    | some b1 =>
      match writeInt16BE b1 descent (hheaOffset + 6) with
      | none => (buffer, [Warning.patchFailed])
      | some b2 =>
        match writeInt16BE b2 lineGap (hheaOffset + 8) with
        | none => (buffer, [Warning.patchFailed])
        | some b3 => (b3, [])

/-- Modelled from the spec: the SFNT header's declared table count, a
big-endian 16-bit field at byte offset 4 (per §4.2 of the spec, "the
directory starts at a fixed header offset … version + table count"). The
script itself never reads this field — which is what claim C4 is about. -/
def declaredNumTables (b : List ℕ) : ℕ :=
  b.getD 4 0 * 256 + b.getD 5 0

/-- The byte result of the patcher's success path: the six sequential
`set`s of the three big-endian 16-bit writes at `o + 4`, `o + 6`,
`o + 8`. -/
def patchedBytes (b : List ℕ) (o : ℕ) (a d g : ℤ) : List ℕ :=
  (((((b.set (o + 4) ((a % 65536).toNat / 256)).set (o + 5) ((a % 65536).toNat % 256)).set
    (o + 6) ((d % 65536).toNat / 256)).set (o + 7) ((d % 65536).toNat % 256)).set
    (o + 8) ((g % 65536).toNat / 256)).set (o + 9) ((g % 65536).toNat % 256)

/-- Side condition for idempotence of the patcher: when the scan finds
the tag at directory position `i`, the patched byte range (which starts
at `o + 4`) must lie beyond every byte the scan examines up to and
including that entry (bytes `12` through `i + 11`). Well-formed SFNT
output satisfies this, since table content follows the directory. -/
def patchSeparated (b : List ℕ) : Bool :=
  match findHhea b with
  | none => true
  | some i => decide (i + 12 ≤ readUInt32BE b (i + 8) + 4)

/-! ## Concrete data for witnesses and counterexamples -/

/-- A 44-byte buffer whose directory entry at byte 12 is tagged `hhea`
with content offset 28 (read from bytes 20–23). -/
def sampleBuf : List ℕ :=
  [0, 1, 0, 0, 0, 1, 0, 0, 0, 0, 0, 0] ++ [104, 104, 101, 97] ++
    [0, 0, 0, 0] ++ [0, 0, 0, 28] ++ [0, 0, 0, 36] ++
    [0, 0, 0, 0, 0, 0, 0, 0, 0, 0, 0, 0, 0, 0, 0, 0]

/-- A 45-byte buffer whose header declares zero tables (bytes 4–5) yet
carries the bytes `hhea` at stride position 28, past the declared
directory. -/
def zeroTablesBuf : List ℕ :=
  [0, 1, 0, 0, 0, 0, 0, 0, 0, 0, 0, 0] ++
    [0, 0, 0, 0, 0, 0, 0, 0, 0, 0, 0, 0, 0, 0, 0, 0] ++
    [104, 104, 101, 97] ++ [0, 0, 0, 0] ++ [0, 0, 0, 0] ++ [0, 0, 0, 0, 0]

/-- A 29-byte buffer whose `hhea` directory entry at byte 12 declares
content offset 16, so the patched bytes (20–25) overlap the entry's own
offset field (bytes 20–23). -/
def overlapBuf : List ℕ :=
  [0, 0, 0, 0, 0, 0, 0, 0, 0, 0, 0, 0] ++ [104, 104, 101, 97] ++
    [0, 0, 0, 0] ++ [0, 0, 0, 16] ++ [0, 0, 0, 0, 0]

/-- An hhea record whose `version` field is the (falsy) integer 0. -/
def zeroVersionHhea : HheaTable :=
  ⟨0, 1, 2, 3, 4, 5, 6, 7, 8, 9, 10, 11, 12, 13, 14, 15, 16⟩

/-- A font with both metrics tables present, used to exhibit the edit's
behaviour on out-of-range metrics. -/
def sampleFont : FontTables :=
  ⟨some ⟨0, 0, 0, 0, 0, 0⟩,
   some ⟨65536, 0, 0, 0, 1, 2, 3, 4, 5, 6, 7, 0, 0, 0, 0, 0, 8⟩⟩

/-! ## Helper lemmas on bytes and the patcher -/

theorem getD_set_self (l : List ℕ) (i a : ℕ) (h : i < l.length) :
    (l.set i a).getD i 0 = a := by
  rw [List.getD_eq_getElem?_getD, List.getElem?_set_self h, Option.getD_some]

theorem getD_set_ne (l : List ℕ) (i j a : ℕ) (h : i ≠ j) :
    (l.set i a).getD j 0 = l.getD j 0 := by
  rw [List.getD_eq_getElem?_getD, List.getElem?_set_ne h, ← List.getD_eq_getElem?_getD]

theorem set_eq_self_of_getD (l : List ℕ) (i a : ℕ) (ha : l.getD i 0 = a) :
    l.set i a = l := by
  by_cases h : i < l.length
  · apply List.ext_getElem?
    intro j
    rcases eq_or_ne i j with rfl | hne
    · rw [List.getElem?_set_self h, List.getElem?_eq_getElem h]
      rw [List.getD_eq_getElem?_getD, List.getElem?_eq_getElem h, Option.getD_some] at ha
      rw [ha]
    · rw [List.getElem?_set_ne hne]
  · rw [List.set_eq_of_length_le (by omega)]

theorem writeInt16BE_pos (b : List ℕ) (v : ℤ) (off : ℕ)
    (hv : inRange16 v) (hoff : off + 2 ≤ b.length) :
    writeInt16BE b v off =
      some ((b.set off ((v % 65536).toNat / 256)).set (off + 1) ((v % 65536).toNat % 256)) := by
  unfold writeInt16BE
  rw [if_pos ⟨hv, hoff⟩]

theorem writeInt16BE_none (b : List ℕ) (v : ℤ) (off : ℕ)
    (h : ¬(inRange16 v ∧ off + 2 ≤ b.length)) :
    writeInt16BE b v off = none := by
  unfold writeInt16BE
  rw [if_neg h]

theorem writeInt16BE_some_elim (b b' : List ℕ) (v : ℤ) (off : ℕ)
    (h : writeInt16BE b v off = some b') :
    inRange16 v ∧ off + 2 ≤ b.length ∧
      b' = (b.set off ((v % 65536).toNat / 256)).set (off + 1) ((v % 65536).toNat % 256) := by
  unfold writeInt16BE at h
  split at h
  · rename_i hcond
    exact ⟨hcond.1, hcond.2, (Option.some.inj h).symm⟩
  · exact absurd h (by simp)

/-- The successful path of the patcher: tag found, all three writes in
range and in bounds. -/
theorem patch_success (b : List ℕ) (a d g : ℤ) (i o : ℕ)
    (hfind : findHhea b = some i) (ho : o = readUInt32BE b (i + 8))
    (ha : inRange16 a) (hd : inRange16 d) (hg : inRange16 g)
    (hbound : o + 10 ≤ b.length) :
    patchHheaTable b a d g = (patchedBytes b o a d g, []) := by
  subst ho
  set o := readUInt32BE b (i + 8) with ho
  have e1 : o + 4 + 1 = o + 5 := by omega
  have e2 : o + 6 + 1 = o + 7 := by omega
  have e3 : o + 8 + 1 = o + 9 := by omega
  have h1 := writeInt16BE_pos b a (o + 4) ha (by omega)
  rw [e1] at h1
  have hlen1 : ((b.set (o + 4) ((a % 65536).toNat / 256)).set (o + 5)
      ((a % 65536).toNat % 256)).length = b.length := by simp
  have h2 := writeInt16BE_pos ((b.set (o + 4) ((a % 65536).toNat / 256)).set (o + 5)
      ((a % 65536).toNat % 256)) d (o + 6) hd (by rw [hlen1]; omega)
  rw [e2] at h2
  have hlen2 : ((((b.set (o + 4) ((a % 65536).toNat / 256)).set (o + 5)
      ((a % 65536).toNat % 256)).set (o + 6) ((d % 65536).toNat / 256)).set (o + 7)
      ((d % 65536).toNat % 256)).length = b.length := by simp
  have h3 := writeInt16BE_pos ((((b.set (o + 4) ((a % 65536).toNat / 256)).set (o + 5)
      ((a % 65536).toNat % 256)).set (o + 6) ((d % 65536).toNat / 256)).set (o + 7)
      ((d % 65536).toNat % 256)) g (o + 8) hg (by rw [hlen2]; omega)
  rw [e3] at h3
  simp only [patchHheaTable, hfind, ← ho, h1, h2, h3, patchedBytes]

/-- The tag-not-found path of the patcher. -/
theorem patch_not_found (b : List ℕ) (a d g : ℤ) (hfind : findHhea b = none) :
    patchHheaTable b a d g = (b, [Warning.patchTargetNotFound]) := by
  simp only [patchHheaTable, hfind]

/-- The caught-throw path: the tag was found but some 16-bit write is out
of range or out of bounds, so the original buffer comes back with a
warning. -/
theorem patch_fail (b : List ℕ) (a d g : ℤ) (i : ℕ)
    (hfind : findHhea b = some i)
    (hbad : ¬(inRange16 a ∧ inRange16 d ∧ inRange16 g ∧
      readUInt32BE b (i + 8) + 10 ≤ b.length)) :
    patchHheaTable b a d g = (b, [Warning.patchFailed]) := by
  rcases hw1 : writeInt16BE b a (readUInt32BE b (i + 8) + 4) with _ | b1
  · simp only [patchHheaTable, hfind, hw1]
  rcases hw2 : writeInt16BE b1 d (readUInt32BE b (i + 8) + 6) with _ | b2
  · simp only [patchHheaTable, hfind, hw1, hw2]
  rcases hw3 : writeInt16BE b2 g (readUInt32BE b (i + 8) + 8) with _ | b3
  · simp only [patchHheaTable, hfind, hw1, hw2, hw3]
  exfalso
  obtain ⟨ha, _, hb1⟩ := writeInt16BE_some_elim _ _ _ _ hw1
  obtain ⟨hd, _, hb2⟩ := writeInt16BE_some_elim _ _ _ _ hw2
  obtain ⟨hg, hlen3, _⟩ := writeInt16BE_some_elim _ _ _ _ hw3
  have hlen2 : b2.length = b.length := by rw [hb2, hb1]; simp
  exact hbad ⟨ha, hd, hg, by rw [hlen2] at hlen3; omega⟩

/-- The patcher never changes the buffer's length. -/
theorem patch_length (b : List ℕ) (a d g : ℤ) :
    (patchHheaTable b a d g).1.length = b.length := by
  rcases hf : findHhea b with _ | i
  · rw [patch_not_found b a d g hf]
  by_cases hc : inRange16 a ∧ inRange16 d ∧ inRange16 g ∧
      readUInt32BE b (i + 8) + 10 ≤ b.length
  · rw [patch_success b a d g i (readUInt32BE b (i + 8)) hf rfl hc.1 hc.2.1 hc.2.2.1 hc.2.2.2]
    simp [patchedBytes]
  · rw [patch_fail b a d g i hf hc]

/-- Bytes below the patched range are untouched. -/
theorem patchedBytes_getD_low (b : List ℕ) (o : ℕ) (a d g : ℤ) (j : ℕ)
    (hj : j < o + 4 ∨ o + 10 ≤ j) :
    (patchedBytes b o a d g).getD j 0 = b.getD j 0 := by
  unfold patchedBytes
  rw [getD_set_ne _ _ _ _ (by omega), getD_set_ne _ _ _ _ (by omega),
    getD_set_ne _ _ _ _ (by omega), getD_set_ne _ _ _ _ (by omega),
    getD_set_ne _ _ _ _ (by omega), getD_set_ne _ _ _ _ (by omega)]

/-- The six patched bytes hold the big-endian encodings of the three
metric values. -/
theorem patchedBytes_getD_at (b : List ℕ) (o : ℕ) (a d g : ℤ) (hbound : o + 10 ≤ b.length) :
    (patchedBytes b o a d g).getD (o + 4) 0 = (a % 65536).toNat / 256
    ∧ (patchedBytes b o a d g).getD (o + 5) 0 = (a % 65536).toNat % 256
    ∧ (patchedBytes b o a d g).getD (o + 6) 0 = (d % 65536).toNat / 256
    ∧ (patchedBytes b o a d g).getD (o + 7) 0 = (d % 65536).toNat % 256
    ∧ (patchedBytes b o a d g).getD (o + 8) 0 = (g % 65536).toNat / 256
    ∧ (patchedBytes b o a d g).getD (o + 9) 0 = (g % 65536).toNat % 256 := by
  unfold patchedBytes
  refine ⟨?_, ?_, ?_, ?_, ?_, ?_⟩
  · rw [getD_set_ne _ _ _ _ (by omega), getD_set_ne _ _ _ _ (by omega),
      getD_set_ne _ _ _ _ (by omega), getD_set_ne _ _ _ _ (by omega),
      getD_set_ne _ _ _ _ (by omega), getD_set_self _ _ _ (by omega)]
  · rw [getD_set_ne _ _ _ _ (by omega), getD_set_ne _ _ _ _ (by omega),
      getD_set_ne _ _ _ _ (by omega), getD_set_ne _ _ _ _ (by omega),
      getD_set_self _ _ _ (by simp; omega)]
  · rw [getD_set_ne _ _ _ _ (by omega), getD_set_ne _ _ _ _ (by omega),
      getD_set_ne _ _ _ _ (by omega), getD_set_self _ _ _ (by simp; omega)]
  · rw [getD_set_ne _ _ _ _ (by omega), getD_set_ne _ _ _ _ (by omega),
      getD_set_self _ _ _ (by simp; omega)]
  · rw [getD_set_ne _ _ _ _ (by omega), getD_set_self _ _ _ (by simp; omega)]
  · rw [getD_set_self _ _ _ (by simp; omega)]

/-! ## Helper lemmas on the directory scan -/

/-- Any hit of the scan lies on a 16-byte stride from byte 12, inside the
guard bound, and carries the tag. -/
theorem findHheaAux_spec (b : List ℕ) :
    ∀ fuel i iF, findHheaAux b i fuel = some iF →
      i ≤ iF ∧ (iF - i) % 16 = 0 ∧ iF < b.length - 16 ∧ tagMatch b iF := by
  intro fuel
  induction fuel with
  | zero => intro i iF h; exact absurd h (by simp [findHheaAux])
  | succ fuel ih =>
    intro i iF h
    unfold findHheaAux at h
    split at h
    · rename_i hguard
      split at h
      · rename_i htag
        obtain rfl : i = iF := Option.some.inj h
        exact ⟨le_refl i, by omega, hguard, htag⟩
      · obtain ⟨h1, h2, h3, h4⟩ := ih (i + 16) iF h
        exact ⟨by omega, by omega, h3, h4⟩
    · exact absurd h (by simp)

/-- The tag comparison only reads the four bytes at `i … i + 3`. -/
theorem tagMatch_congr (b r : List ℕ) (i : ℕ)
    (heq : ∀ j, j < i + 4 → r.getD j 0 = b.getD j 0) :
    (tagMatch r i ↔ tagMatch b i) := by
  unfold tagMatch
  rw [heq i (by omega), heq (i + 1) (by omega), heq (i + 2) (by omega),
    heq (i + 3) (by omega)]

/-- The scan's verdict depends only on the buffer's length and the bytes
up to the end of the tag it finds. -/
theorem findHheaAux_congr (b r : List ℕ) (hlen : r.length = b.length) :
    ∀ fuel i iF, findHheaAux b i fuel = some iF →
      (∀ j, j < iF + 4 → r.getD j 0 = b.getD j 0) →
      findHheaAux r i fuel = some iF := by
  intro fuel
  induction fuel with
  | zero => intro i iF h _; exact absurd h (by simp [findHheaAux])
  | succ fuel ih =>
    intro i iF h heq
    unfold findHheaAux at h ⊢
    rw [hlen]
    split at h
    · rename_i hguard
      rw [if_pos hguard]
      split at h
      · rename_i htag
        obtain rfl : i = iF := Option.some.inj h
        rw [if_pos ((tagMatch_congr b r i heq).mpr htag)]
      · rename_i htag
        have hle : i + 16 ≤ iF := (findHheaAux_spec b fuel (i + 16) iF h).1
        have htag' : ¬tagMatch r i := by
          rw [tagMatch_congr b r i (fun j hj => heq j (by omega))]
          exact htag
        rw [if_neg htag']
        exact ih (i + 16) iF h heq
    · exact absurd h (by simp)

/-- `readUInt32BE` only reads the four bytes at `i … i + 3`. -/
theorem readUInt32BE_congr (b r : List ℕ) (i : ℕ)
    (heq : ∀ j, j < i + 4 → r.getD j 0 = b.getD j 0) :
    readUInt32BE r i = readUInt32BE b i := by
  unfold readUInt32BE
  rw [heq i (by omega), heq (i + 1) (by omega), heq (i + 2) (by omega),
    heq (i + 3) (by omega)]

/-! ## Theorems for the claims -/

/-- C6: for positive `unitsPerEm` and the given inputs, the computed
metrics are `ascent = round(u·a/100)`, `descent = -round(u·p/100)`
(hence `descent ≤ 0` for `p ≥ 0` and `descent = 0` for `p = 0`), and
`lineGap = round(g)`; rounding is half-up, not truncation (`90.05 %` of
`1000` gives `901`), and the two concrete examples evaluate as stated. -/
theorem c6_computeMetrics (u a p g : ℚ) (hu : 0 < u) (hp : 0 ≤ p) :
    computeMetrics u a p g =
      ⟨jsRound (u * (a / 100)), -jsRound (u * (p / 100)), jsRound g⟩
    ∧ (computeMetrics u a p g).descent ≤ 0
    ∧ (p = 0 → (computeMetrics u a p g).descent = 0)
    ∧ computeMetrics 1000 90 22 0 = ⟨900, -220, 0⟩
    ∧ computeMetrics 2048 80 20 10 = ⟨1638, -410, 10⟩
    ∧ (computeMetrics 1000 (1801 / 20) 22 0).ascent = 901 := by
  refine ⟨rfl, ?_, ?_, ?_, ?_, ?_⟩
  · show -jsRound (u * (p / 100)) ≤ 0
    have h1 : (0 : ℚ) ≤ u * (p / 100) := by positivity
    have h2 : (0 : ℤ) ≤ ⌊u * (p / 100) + 1 / 2⌋ := Int.floor_nonneg.mpr (by linarith)
    simp only [jsRound]; omega
  · intro hp0
    show -jsRound (u * (p / 100)) = 0
    subst hp0; norm_num [jsRound]
  · simp only [computeMetrics, Metrics.mk.injEq]
    refine ⟨?_, ?_, ?_⟩ <;> norm_num [jsRound]
  · simp only [computeMetrics, Metrics.mk.injEq]
    refine ⟨?_, ?_, ?_⟩ <;> norm_num [jsRound]
  · norm_num [computeMetrics, jsRound]

/-- Witness for C6 at `u = 1000, a = 90, p = 22, g = 0`. -/
theorem c6_computeMetrics_witness :
    computeMetrics 1000 90 22 0 = ⟨900, -220, 0⟩ :=
  (c6_computeMetrics 1000 90 22 0 (by norm_num) (by norm_num)).2.2.2.1

/-- C10: the `fsSelection` update is exactly `old ||| 0x80`: bit 7 is set
afterwards, every previously-set bit stays set, and every bit other than
bit 7 is unchanged. -/
theorem c10_fsSelection_monotone (os2 : OS2Table) (m : Metrics) (k : ℕ) :
    (editOs2 os2 m).fsSelection = os2.fsSelection ||| 0x80
    ∧ ((editOs2 os2 m).fsSelection).testBit 7 = true
    ∧ (os2.fsSelection.testBit k = true → ((editOs2 os2 m).fsSelection).testBit k = true)
    ∧ (k ≠ 7 → ((editOs2 os2 m).fsSelection).testBit k = os2.fsSelection.testBit k) := by
  have hbit : ∀ j : ℕ, ((editOs2 os2 m).fsSelection).testBit j =
      (os2.fsSelection.testBit j || (128 : ℕ).testBit j) := fun j =>
    Nat.testBit_or os2.fsSelection 128 j
  refine ⟨rfl, ?_, ?_, ?_⟩
  · rw [hbit]
    have h7 : (128 : ℕ).testBit 7 = true := by decide
    rw [h7, Bool.or_true]
  · intro h; rw [hbit, h]; rfl
  · intro hk
    have h128 : (128 : ℕ).testBit k = false := by
      have h2 : (128 : ℕ) = 2 ^ 7 := by norm_num
      rw [h2, Nat.testBit_two_pow]
      simp only [decide_eq_false_iff_not]
      omega
    rw [hbit, h128, Bool.or_false]

/-- Witness for C10 at a concrete table, metrics and bit index. -/
theorem c10_fsSelection_monotone_witness :
    (editOs2 ⟨1, 2, 3, 4, 5, 37⟩ ⟨900, -220, 0⟩).fsSelection = 37 ||| 0x80 ∧
      (editOs2 ⟨1, 2, 3, 4, 5, 37⟩ ⟨900, -220, 0⟩).fsSelection.testBit 0 =
        (37 : ℕ).testBit 0 :=
  ⟨(c10_fsSelection_monotone ⟨1, 2, 3, 4, 5, 37⟩ ⟨900, -220, 0⟩ 0).1,
   (c10_fsSelection_monotone ⟨1, 2, 3, 4, 5, 37⟩ ⟨900, -220, 0⟩ 0).2.2.2 (by decide)⟩

/-- C3: when both tables are present, the structured edit sets the
hhea ascender/descender/lineGap and the OS/2 typographic
ascender/descender/lineGap to the same computed triple, so the two
tables agree exactly after the edit. -/
theorem c3_tables_agree (f : FontTables) (m : Metrics) (o : OS2Table) (h : HheaTable)
    (ho : f.os2 = some o) (hh : f.hhea = some h) :
    ∃ o' h', (editFont f m).1.os2 = some o' ∧ (editFont f m).1.hhea = some h'
      ∧ h'.ascender = o'.sTypoAscender
      ∧ h'.descender = o'.sTypoDescender
      ∧ h'.lineGap = o'.sTypoLineGap := by
  refine ⟨editOs2 o m, editHhea h m, ?_, ?_, rfl, rfl, rfl⟩
  · simp [editFont, ho, hh]
  · simp [editFont, ho, hh]

/-- Witness for C3 at a concrete font and metric triple. -/
theorem c3_tables_agree_witness :
    ∃ o' h',
      (editFont ⟨some ⟨1, 2, 3, 4, 5, 6⟩, some ⟨65536, 7, 8, 9, 10, 11, 12, 13, 14, 15, 16,
        0, 0, 0, 0, 0, 17⟩⟩ ⟨900, -220, 0⟩).1.os2 = some o'
      ∧ (editFont ⟨some ⟨1, 2, 3, 4, 5, 6⟩, some ⟨65536, 7, 8, 9, 10, 11, 12, 13, 14, 15, 16,
          0, 0, 0, 0, 0, 17⟩⟩ ⟨900, -220, 0⟩).1.hhea = some h'
      ∧ h'.ascender = o'.sTypoAscender
      ∧ h'.descender = o'.sTypoDescender
      ∧ h'.lineGap = o'.sTypoLineGap :=
  c3_tables_agree _ ⟨900, -220, 0⟩ ⟨1, 2, 3, 4, 5, 6⟩
    ⟨65536, 7, 8, 9, 10, 11, 12, 13, 14, 15, 16, 0, 0, 0, 0, 0, 17⟩ rfl rfl

/-- C2: when the scan locates the `hhea` entry at position `i` with
content offset `o`, and the metric values are 16-bit representable and
the write range fits the buffer (as in any serialized SFNT), the patcher
stores the big-endian two's-complement encodings of ascent, descent and
line-gap at bytes `o+4`/`o+5`, `o+6`/`o+7`, `o+8`/`o+9`, and every byte
outside `o+4 … o+9` is unchanged. -/
theorem c2_patch_writes (b : List ℕ) (a d g : ℤ) (i o : ℕ)
    (hfind : findHhea b = some i) (ho : o = readUInt32BE b (i + 8))
    (ha : inRange16 a) (hd : inRange16 d) (hg : inRange16 g)
    (hbound : o + 10 ≤ b.length) :
    (patchHheaTable b a d g).1.getD (o + 4) 0 = (a % 65536).toNat / 256
    ∧ (patchHheaTable b a d g).1.getD (o + 5) 0 = (a % 65536).toNat % 256
    ∧ (patchHheaTable b a d g).1.getD (o + 6) 0 = (d % 65536).toNat / 256
    ∧ (patchHheaTable b a d g).1.getD (o + 7) 0 = (d % 65536).toNat % 256
    ∧ (patchHheaTable b a d g).1.getD (o + 8) 0 = (g % 65536).toNat / 256
    ∧ (patchHheaTable b a d g).1.getD (o + 9) 0 = (g % 65536).toNat % 256
    ∧ ∀ j, j < o + 4 ∨ o + 10 ≤ j →
        (patchHheaTable b a d g).1.getD j 0 = b.getD j 0 := by
  rw [patch_success b a d g i o hfind ho ha hd hg hbound]
  obtain ⟨h4, h5, h6, h7, h8, h9⟩ := patchedBytes_getD_at b o a d g hbound
  exact ⟨h4, h5, h6, h7, h8, h9, fun j hj => patchedBytes_getD_low b o a d g j hj⟩

/-- Witness for C2 on the concrete 44-byte buffer: ascent 900 is stored
as `0x03 0x84` at bytes 32–33, descent −220 starts with byte `0xFF` at
byte 34, and byte 0 is untouched. -/
theorem c2_patch_writes_witness :
    (patchHheaTable sampleBuf 900 (-220) 0).1.getD (28 + 4) 0 = 3
    ∧ (patchHheaTable sampleBuf 900 (-220) 0).1.getD (28 + 6) 0 = 255
    ∧ (patchHheaTable sampleBuf 900 (-220) 0).1.getD 0 0 = sampleBuf.getD 0 0 := by
  have h := c2_patch_writes sampleBuf 900 (-220) 0 12 28 (by decide) (by decide)
    (by decide) (by decide) (by decide) (by decide)
  exact ⟨h.1.trans (by decide), h.2.2.1.trans (by decide), h.2.2.2.2.2.2 0 (by omega)⟩

/-- C4 (amended): the scan starts at byte 12 and walks 16-byte strides
while `i < length − 16`, so any hit lies on a stride inside the buffer
and every byte examined is in bounds; it consults the declared table
count nowhere, and a directory without the tag is a
`PatchTargetNotFound` warning with the input returned unchanged (there
is no container-malformed report). -/
theorem c4_scan_bounds (b : List ℕ) (a d g : ℤ) :
    (∀ i, findHhea b = some i →
      12 ≤ i ∧ (i - 12) % 16 = 0 ∧ i + 16 < b.length)
    ∧ (findHhea b = none →
        patchHheaTable b a d g = (b, [Warning.patchTargetNotFound])) := by
  constructor
  · intro i h
    obtain ⟨h1, h2, h3, _⟩ := findHheaAux_spec b b.length 12 i h
    exact ⟨h1, h2, by omega⟩
  · intro h
    exact patch_not_found b a d g h

/-- Witness for C4 on the 45-byte buffer: the hit at byte 28 is a
stride position inside the buffer. -/
theorem c4_scan_bounds_witness :
    12 ≤ 28 ∧ (28 - 12) % 16 = 0 ∧ 28 + 16 < zeroTablesBuf.length :=
  (c4_scan_bounds zeroTablesBuf 0 0 0).1 28 (by decide)

/-- Counterexample for C4 as stated: this buffer's header declares zero
directory entries, yet the scan examines the stride at byte 28 — past
the declared count — and reports a hit there. -/
theorem c4_scan_ignores_count_cex :
    declaredNumTables zeroTablesBuf = 0 ∧ findHhea zeroTablesBuf = some 28 := by
  decide

/-- C5: when the scan misses, the patcher returns its input bytes with
the `PatchTargetNotFound` warning, and the structured OS/2 edit still
carries the computed metrics into the cross-platform table. -/
theorem c5_miss_nonfatal (b : List ℕ) (a d g : ℤ) (f : FontTables) (o : OS2Table)
    (m : Metrics) (hfind : findHhea b = none) (ho : f.os2 = some o) :
    patchHheaTable b a d g = (b, [Warning.patchTargetNotFound])
    ∧ (editFont f m).1.os2 = some (editOs2 o m)
    ∧ (editOs2 o m).sTypoAscender = m.ascent
    ∧ (editOs2 o m).sTypoDescender = m.descent
    ∧ (editOs2 o m).sTypoLineGap = m.lineGap := by
  refine ⟨patch_not_found b a d g hfind, ?_, rfl, rfl, rfl⟩
  simp [editFont, ho]

/-- Witness for C5: the empty buffer has no directory, and a concrete
font's OS/2 table is still edited. -/
theorem c5_miss_nonfatal_witness :
    patchHheaTable [] 900 (-220) 0 = ([], [Warning.patchTargetNotFound])
    ∧ (editFont ⟨some ⟨1, 2, 3, 4, 5, 6⟩, none⟩ ⟨900, -220, 0⟩).1.os2 =
        some (editOs2 ⟨1, 2, 3, 4, 5, 6⟩ ⟨900, -220, 0⟩) := by
  have h := c5_miss_nonfatal [] 900 (-220) 0 ⟨some ⟨1, 2, 3, 4, 5, 6⟩, none⟩
    ⟨1, 2, 3, 4, 5, 6⟩ ⟨900, -220, 0⟩ (by decide) rfl
  exact ⟨h.1, h.2.1⟩

/-- C9: the patcher is total and length-preserving; whenever an internal
write would throw — a metric outside the 16-bit range, or a write range
outside the buffer at the offset read from the directory — the original
input comes back instead of an exception. -/
theorem c9_patcher_total (b : List ℕ) (a d g : ℤ) :
    (patchHheaTable b a d g).1.length = b.length
    ∧ ((¬inRange16 a ∨ ¬inRange16 d ∨ ¬inRange16 g) →
        (patchHheaTable b a d g).1 = b)
    ∧ (∀ i, findHhea b = some i → b.length < readUInt32BE b (i + 8) + 10 →
        (patchHheaTable b a d g).1 = b) := by
  refine ⟨patch_length b a d g, ?_, ?_⟩
  · intro hbad
    rcases hf : findHhea b with _ | i
    · rw [patch_not_found b a d g hf]
    · rw [patch_fail b a d g i hf (by tauto)]
  · intro i hf hb
    rw [patch_fail b a d g i hf (by intro hc; exact absurd hc.2.2.2 (by omega))]

/-- Witness for C9: an out-of-range ascent of 40000 leaves the concrete
buffer untouched. -/
theorem c9_patcher_total_witness :
    (patchHheaTable sampleBuf 40000 0 0).1 = sampleBuf :=
  (c9_patcher_total sampleBuf 40000 0 0).2.1 (Or.inl (by decide))

/-- Writing the six patch bytes over a buffer that already holds exactly
those values is the identity. -/
theorem patchedBytes_eq_self (l : List ℕ) (o : ℕ) (a d g : ℤ)
    (h4 : l.getD (o + 4) 0 = (a % 65536).toNat / 256)
    (h5 : l.getD (o + 5) 0 = (a % 65536).toNat % 256)
    (h6 : l.getD (o + 6) 0 = (d % 65536).toNat / 256)
    (h7 : l.getD (o + 7) 0 = (d % 65536).toNat % 256)
    (h8 : l.getD (o + 8) 0 = (g % 65536).toNat / 256)
    (h9 : l.getD (o + 9) 0 = (g % 65536).toNat % 256) :
    patchedBytes l o a d g = l := by
  unfold patchedBytes
  rw [set_eq_self_of_getD _ _ _ h4, set_eq_self_of_getD _ _ _ h5,
    set_eq_self_of_getD _ _ _ h6, set_eq_self_of_getD _ _ _ h7,
    set_eq_self_of_getD _ _ _ h8, set_eq_self_of_getD _ _ _ h9]

/-- C8 (amended): the patcher is idempotent on every input whose located
table content does not overlap the scanned directory prefix — in
particular whenever the scan misses, a write fails, or (as in every
well-formed SFNT) the table body at `o + 4` lies past its own directory
entry (`i + 12 ≤ o + 4`). -/
theorem c8_patch_idempotent (b : List ℕ) (a d g : ℤ)
    (hsep : patchSeparated b = true) :
    (patchHheaTable (patchHheaTable b a d g).1 a d g).1 =
      (patchHheaTable b a d g).1 := by
  rcases hf : findHhea b with _ | i
  · rw [patch_not_found b a d g hf]
    show (patchHheaTable b a d g).1 = b
    rw [patch_not_found b a d g hf]
  by_cases hc : inRange16 a ∧ inRange16 d ∧ inRange16 g ∧
      readUInt32BE b (i + 8) + 10 ≤ b.length
  · obtain ⟨ha, hd, hg, hb⟩ := hc
    have hio : i + 12 ≤ readUInt32BE b (i + 8) + 4 := by
      unfold patchSeparated at hsep
      rw [hf] at hsep
      simpa using hsep
    set o := readUInt32BE b (i + 8) with ho
    have hps := patch_success b a d g i o hf ho ha hd hg hb
    rw [hps]
    show (patchHheaTable (patchedBytes b o a d g) a d g).1 = patchedBytes b o a d g
    have hlen : (patchedBytes b o a d g).length = b.length := by simp [patchedBytes]
    have hlow : ∀ j, j < o + 4 → (patchedBytes b o a d g).getD j 0 = b.getD j 0 :=
      fun j hj => patchedBytes_getD_low b o a d g j (Or.inl hj)
    have hfind' : findHhea (patchedBytes b o a d g) = some i := by
      unfold findHhea
      rw [hlen]
      exact findHheaAux_congr b _ hlen b.length 12 i hf (fun j hj => hlow j (by omega))
    have hread : readUInt32BE (patchedBytes b o a d g) (i + 8) = o := by
      rw [readUInt32BE_congr b _ (i + 8) (fun j hj => hlow j (by omega)), ← ho]
    have hps2 := patch_success (patchedBytes b o a d g) a d g i o hfind' hread.symm
      ha hd hg (by rw [hlen]; omega)
    rw [hps2]
    obtain ⟨g4, g5, g6, g7, g8, g9⟩ := patchedBytes_getD_at b o a d g hb
    exact patchedBytes_eq_self _ o a d g g4 g5 g6 g7 g8 g9
  · rw [patch_fail b a d g i hf hc]
    show (patchHheaTable b a d g).1 = b
    rw [patch_fail b a d g i hf hc]

/-- Witness for C8 on the concrete 44-byte buffer, whose table content at
offset 28 lies past its directory entry. -/
theorem c8_patch_idempotent_witness :
    (patchHheaTable (patchHheaTable sampleBuf 900 (-220) 0).1 900 (-220) 0).1 =
      (patchHheaTable sampleBuf 900 (-220) 0).1 :=
  c8_patch_idempotent sampleBuf 900 (-220) 0 (by decide)

/-- Counterexample for C8 as stated: in this buffer the `hhea` entry
declares content offset 16, so the patch bytes overwrite the entry's own
offset field; the second application then reads offset 0 and writes at
different positions, and the double patch differs from the single one. -/
theorem c8_patch_idempotent_cex :
    (patchHheaTable (patchHheaTable overlapBuf 0 0 1).1 0 0 1).1 ≠
      (patchHheaTable overlapBuf 0 0 1).1 := by
  decide

/-- C1 (amended): no range check exists on the computed metrics — the
structured edit writes them into the OS/2 table whatever their size, and
an out-of-range value only surfaces later, when the binary patcher's
16-bit write throws, is caught, and the serialized bytes come back
unpatched with a warning (there is no `MetricOutOfRange` report). -/
theorem c1_out_of_range_unchecked (f : FontTables) (o : OS2Table) (m : Metrics)
    (b : List ℕ) (a d g : ℤ) (ho : f.os2 = some o) (ha : ¬inRange16 a) :
    (editFont f m).1.os2 = some (editOs2 o m)
    ∧ (patchHheaTable b a d g).1 = b
    ∧ (patchHheaTable b a d g).2 ≠ [] := by
  refine ⟨by simp [editFont, ho], ?_, ?_⟩
  · rcases hf : findHhea b with _ | i
    · rw [patch_not_found b a d g hf]
    · rw [patch_fail b a d g i hf (by tauto)]
  · rcases hf : findHhea b with _ | i
    · rw [patch_not_found b a d g hf]
      simp
    · rw [patch_fail b a d g i hf (by tauto)]
      simp

/-- Witness for C1 (amended) at an out-of-range ascent of 40000. -/
theorem c1_out_of_range_unchecked_witness :
    (patchHheaTable sampleBuf 40000 (-220) 0).1 = sampleBuf :=
  (c1_out_of_range_unchecked ⟨some ⟨1, 2, 3, 4, 5, 6⟩, none⟩ ⟨1, 2, 3, 4, 5, 6⟩
    ⟨40000, -220, 0⟩ sampleBuf 40000 (-220) 0 rfl (by decide)).2.1

/-- Counterexample for C1 as stated: `computeMetrics(1000, 10000, 22, 0)`
yields an ascent of 100000, far outside the 16-bit range, yet the edit
still mutates the font's tables instead of reporting an error. -/
theorem c1_no_range_check_cex :
    computeMetrics 1000 10000 22 0 = ⟨100000, -220, 0⟩
    ∧ ¬inRange16 (100000 : ℤ)
    ∧ (editFont sampleFont ⟨100000, -220, 0⟩).1 ≠ sampleFont := by
  refine ⟨?_, by decide, by decide⟩
  simp only [computeMetrics, Metrics.mk.injEq]
  refine ⟨?_, ?_, ?_⟩ <;> norm_num [jsRound]

/-- C7 (amended): the hhea replacement stores the computed metrics and
preserves every pass-through field verbatim, except that a falsy (zero)
`version` is replaced by the default `0x00010000`; the `|| 0` defaults on
the reserved and metric-data-format fields are value-preserving. -/
theorem c7_hhea_replacement (orig : HheaTable) (m : Metrics)
    (hv : orig.version ≠ 0) :
    (editHhea orig m).ascender = m.ascent
    ∧ (editHhea orig m).descender = m.descent
    ∧ (editHhea orig m).lineGap = m.lineGap
    ∧ (editHhea orig m).version = orig.version
    ∧ (editHhea orig m).advanceWidthMax = orig.advanceWidthMax
    ∧ (editHhea orig m).minLeftSideBearing = orig.minLeftSideBearing
    ∧ (editHhea orig m).minRightSideBearing = orig.minRightSideBearing
    ∧ (editHhea orig m).xMaxExtent = orig.xMaxExtent
    ∧ (editHhea orig m).caretSlopeRise = orig.caretSlopeRise
    ∧ (editHhea orig m).caretSlopeRun = orig.caretSlopeRun
    ∧ (editHhea orig m).caretOffset = orig.caretOffset
    ∧ (editHhea orig m).reserved1 = orig.reserved1
    ∧ (editHhea orig m).reserved2 = orig.reserved2
    ∧ (editHhea orig m).reserved3 = orig.reserved3
    ∧ (editHhea orig m).reserved4 = orig.reserved4
    ∧ (editHhea orig m).metricDataFormat = orig.metricDataFormat
    ∧ (editHhea orig m).numberOfHMetrics = orig.numberOfHMetrics := by
  have hz : ∀ x : ℤ, jsOr x 0 = x := by
    intro x
    unfold jsOr
    split <;> omega
  refine ⟨rfl, rfl, rfl, ?_, rfl, rfl, rfl, rfl, rfl, rfl, rfl,
    hz _, hz _, hz _, hz _, hz _, rfl⟩
  show jsOr orig.version 0x00010000 = orig.version
  unfold jsOr
  rw [if_neg hv]

/-- Witness for C7 (amended) on a record with the standard version
`0x00010000`. -/
theorem c7_hhea_replacement_witness :
    (editHhea ⟨65536, 1, 2, 3, 4, 5, 6, 7, 8, 9, 10, 11, 12, 13, 14, 15, 16⟩
      ⟨900, -220, 0⟩).version = 65536
    ∧ (editHhea ⟨65536, 1, 2, 3, 4, 5, 6, 7, 8, 9, 10, 11, 12, 13, 14, 15, 16⟩
        ⟨900, -220, 0⟩).ascender = 900 :=
  ⟨(c7_hhea_replacement ⟨65536, 1, 2, 3, 4, 5, 6, 7, 8, 9, 10, 11, 12, 13, 14, 15, 16⟩
      ⟨900, -220, 0⟩ (by decide)).2.2.2.1,
   (c7_hhea_replacement ⟨65536, 1, 2, 3, 4, 5, 6, 7, 8, 9, 10, 11, 12, 13, 14, 15, 16⟩
      ⟨900, -220, 0⟩ (by decide)).1⟩

/-- Counterexample for C7 as stated: a record whose `version` is the
falsy integer 0 is not preserved — the rebuilt table carries the default
`0x00010000` instead. -/
theorem c7_version_not_preserved_cex :
    zeroVersionHhea.version = 0
    ∧ (editHhea zeroVersionHhea ⟨900, -220, 0⟩).version = 65536 := by
  decide

end FontMetrics
